import Mathlib

/-!
Verification of the local workspace state model of `git-mcp-server.py`
(repository `claude-github-mcp`).

The Python module keeps, per logical repository name, a `GitWorkspace`
object holding a staging area (path → content), a tracked-file map
(path → sha digest), the current branch name and an optional remote URL,
and persists this state as a JSON document at
`<workspace_path>/.git-mcp/state.json` after every mutation.

Python dictionaries are embedded as association lists with Python's
update semantics: assigning to an existing key replaces its value in
place, assigning a fresh key appends it; `del` removes the entry.
Dictionary equality in Python is key-order independent, which the
claims about round-tripping state make explicit; the embedding keeps
insertion order (as CPython does) and states order-insensitive
properties through lookups and permutations.

The filesystem is embedded as explicit maps from file paths to parsed
file contents (`state.json` documents and `stash.json` stash lists).
`hashlib.sha1(...).hexdigest()` is an external library call; it is
embedded as an abstract deterministic digest function `sha1Hex`
(no claim depends on the digest's actual value, only on it being a
function of the input bytes).  `datetime.now()` is passed in as an
explicit `now : String` argument.
-/

/-- Lookup in an association list (Python `d[k]` / `d.get(k)`). -/
def lookupA {β : Type} (k : String) : List (String × β) → Option β
  | [] => none
  | (k', v) :: rest => if k' = k then some v else lookupA k rest

/-- Key-membership test (Python `k in d`). -/
def hasKeyA {β : Type} (k : String) (m : List (String × β)) : Bool :=
  m.any (fun p => p.1 = k)

/-- Python `d[k] = v`: replace the value of an existing key in place,
otherwise append the new binding at the end. -/
def insertA {β : Type} (m : List (String × β)) (k : String) (v : β) :
    List (String × β) :=
  if hasKeyA k m then
    m.map (fun p => if p.1 = k then (k, v) else p)
  else
    m ++ [(k, v)]

/-- Python `del d[k]` (total: removes nothing when the key is absent;
the source only calls it under a `k in d` guard). -/
def eraseA {β : Type} (m : List (String × β)) (k : String) :
    List (String × β) :=
  m.filter (fun p => ¬ p.1 = k)

/-- Keys of an association list. -/
def keysA {β : Type} (m : List (String × β)) : List String :=
  m.map Prod.fst

/-- Keys are pairwise distinct — the invariant every Python dict enjoys. -/
def NodupKeys {β : Type} (m : List (String × β)) : Prop :=
  (keysA m).Nodup

instance {β : Type} (m : List (String × β)) : Decidable (NodupKeys m) := by
  unfold NodupKeys
  infer_instance

/-- Abstract embedding of `hashlib.sha1(s.encode()).hexdigest()`: an
opaque deterministic digest of the input string.  The claims under
verification use only that it is a function of its input. -/
def sha1Hex (s : String) : String :=
  "sha1-" ++ s

/-- Value type of the persisted JSON documents: `state.json` holds
string-to-string objects, strings, and `null` (for a missing remote). -/
inductive JVal : Type where
  | str : String → JVal
  | obj : List (String × String) → JVal
  | null : JVal
deriving DecidableEq, Repr

/-- Fixed workspace root, `Path.home() / ".git-mcp-workspace"`. -/
def WORKSPACE_ROOT : String := "~/.git-mcp-workspace"

/-- Directory of a repository's workspace:
`WORKSPACE_ROOT / repo_name.replace("/", "_")` — every slash in the
repository name is replaced by an underscore. -/
def defaultWorkspacePath (repoName : String) : String :=
  WORKSPACE_ROOT ++ "/" ++
    String.mk (repoName.data.map (fun c => if c = '/' then '_' else c))

/-- Path of the persisted state document,
`workspace_path / ".git-mcp" / "state.json"`. -/
def stateFilePath (workspacePath : String) : String :=
  workspacePath ++ "/.git-mcp/state.json"

/-- Path of the persisted stash document,
`workspace_path / ".git-mcp" / "stash.json"`. -/
def stashFilePath (workspacePath : String) : String :=
  workspacePath ++ "/.git-mcp/stash.json"

/-- One stash entry, as written to `stash.json` by the `git_stash` tool. -/
structure StashEntry : Type where
  message : String
  branch : String
  files : List (String × String)
  timestamp : String
deriving DecidableEq, Repr

/-- In-memory state of `class GitWorkspace`.  `workspacePath` is a
mutable attribute in the source (the `git_clone` branch reassigns it),
so it is a field here rather than derived from `repoName`. -/
structure GitWorkspace : Type where
  repoName : String
  workspacePath : String
  stagingArea : List (String × String)
  trackedFiles : List (String × String)
  currentBranch : String
  remoteUrl : Option String
deriving DecidableEq, Repr

/-- `GitWorkspace.__init__`: fresh defaults — empty staging area, empty
tracked map, branch `"main"`, no remote. -/
def GitWorkspace.new (repoName : String) : GitWorkspace :=
  { repoName := repoName
    workspacePath := defaultWorkspacePath repoName
    stagingArea := []
    trackedFiles := []
    currentBranch := "main"
    remoteUrl := none }

/-- The filesystem visible to the workspace code: parsed contents of the
`state.json` and `stash.json` files, keyed by path. -/
structure Disk : Type where
  stateFiles : List (String × List (String × JVal))
  stashFiles : List (String × List StashEntry)
deriving DecidableEq, Repr

/-- An empty filesystem. -/
def Disk.empty : Disk :=
  { stateFiles := [], stashFiles := [] }

/-- The JSON object written by `GitWorkspace.save_state` (a dict with the
four keys `staging_area`, `tracked_files`, `current_branch`,
`remote_url`; `json.dump` writes them in this insertion order, and
`remote_url = None` is written as JSON `null`). -/
def saveStateDoc (ws : GitWorkspace) : List (String × JVal) :=
  [ ("staging_area", JVal.obj ws.stagingArea)
  , ("tracked_files", JVal.obj ws.trackedFiles)
  , ("current_branch", JVal.str ws.currentBranch)
  , ("remote_url", match ws.remoteUrl with
      | some u => JVal.str u
      | none => JVal.null) ]

/-- `GitWorkspace.save_state`: write the state document to
`state.json` under the workspace path, replacing any previous file. -/
def saveState (ws : GitWorkspace) (disk : Disk) : Disk :=
  { disk with
    stateFiles :=
      insertA disk.stateFiles (stateFilePath ws.workspacePath)
        (saveStateDoc ws) }

/-- Decoder for `state.get("staging_area", {})` /
`state.get("tracked_files", {})`: the key missing yields the empty
dict (the only values `save_state` ever writes under these keys are
objects). -/
def jGetObj (doc : List (String × JVal)) (k : String) :
    List (String × String) :=
  match lookupA k doc with
  | some (JVal.obj m) => m
  | _ => []

/-- Decoder for `state.get("current_branch", "main")`. -/
def jGetStr (doc : List (String × JVal)) (k : String) (dflt : String) :
    String :=
  match lookupA k doc with
  | some (JVal.str s) => s
  | _ => dflt

/-- Decoder for `state.get("remote_url")`: a missing key or a JSON
`null` both yield `None`. -/
def jGetOptStr (doc : List (String × JVal)) (k : String) : Option String :=
  match lookupA k doc with
  | some (JVal.str s) => some s
  | _ => none

/-- Body of `GitWorkspace.load_state` once the document has been read:
overwrite the four state fields from it, with the defaults above for
missing keys. -/
def loadFields (ws : GitWorkspace) (doc : List (String × JVal)) :
    GitWorkspace :=
  { ws with
    stagingArea := jGetObj doc "staging_area"
    trackedFiles := jGetObj doc "tracked_files"
    currentBranch := jGetStr doc "current_branch" "main"
    remoteUrl := jGetOptStr doc "remote_url" }

/-- `GitWorkspace.load_state`: if `state.json` exists under the
workspace path, overwrite the four state fields from it; if the file
is missing, leave the instance unchanged. -/
def loadState (ws : GitWorkspace) (disk : Disk) : GitWorkspace :=
  match lookupA (stateFilePath ws.workspacePath) disk.stateFiles with
  | none => ws
  | some doc => loadFields ws doc

/-- `GitWorkspace.init`: create the workspace directories and
`save_state()` — note that this writes the instance's current
(default) state even when a state file already exists on disk. -/
def GitWorkspace.init (ws : GitWorkspace) (disk : Disk) : Disk :=
  saveState ws disk

/-- `GitWorkspace.add_to_staging`: stage (insert or overwrite) a path,
then persist. -/
def addToStaging (ws : GitWorkspace) (disk : Disk)
    (filePath content : String) : GitWorkspace × Disk :=
  let ws' := { ws with stagingArea := insertA ws.stagingArea filePath content }
  (ws', saveState ws' disk)

/-- `GitWorkspace.remove_from_staging`: unstage a path if present and
persist; when the path is absent, do nothing at all (no save, no
error). -/
def removeFromStaging (ws : GitWorkspace) (disk : Disk)
    (filePath : String) : GitWorkspace × Disk :=
  if hasKeyA filePath ws.stagingArea then
    let ws' := { ws with stagingArea := eraseA ws.stagingArea filePath }
    (ws', saveState ws' disk)
  else
    (ws, disk)

/-- `GitWorkspace.clear_staging`: empty the staging area and persist. -/
def clearStaging (ws : GitWorkspace) (disk : Disk) : GitWorkspace × Disk :=
  let ws' := { ws with stagingArea := [] }
  (ws', saveState ws' disk)

/-- Record assembled by the `git_commit` tool branch (`commit_info`). -/
structure CommitRecord : Type where
  id : String
  message : String
  description : String
  files : List String
  timestamp : String
deriving DecidableEq, Repr

/-- Result of a `git_commit` call: either the "Nothing to commit" early
return (the `EmptyCommit` condition of the specification), or a
successful commit carrying its record. -/
inductive CommitResult : Type where
  | emptyCommit : CommitResult
  | committed : CommitRecord → CommitResult
deriving DecidableEq, Repr

/-- The `git_commit` tool branch.  On an empty staging area it returns
the error without touching any state.  Otherwise it computes a short
identifier by hashing message + current time, records the staged
paths, moves a content digest for every staged path into
`tracked_files`, clears staging (which persists), and returns the
commit record. -/
def gitCommit (ws : GitWorkspace) (disk : Disk)
    (message description now : String) :
    CommitResult × GitWorkspace × Disk :=
  if ws.stagingArea = [] then
    (CommitResult.emptyCommit, ws, disk)
  else
    let commitId := (sha1Hex (message ++ now)).take 7
    let record : CommitRecord :=
      { id := commitId
        message := message
        description := description
        files := keysA ws.stagingArea
        timestamp := now }
    let tracked' :=
      ws.stagingArea.foldl
        (fun t p => insertA t p.1 (sha1Hex p.2)) ws.trackedFiles
    let ws1 := { ws with trackedFiles := tracked' }
    let (ws2, disk2) := clearStaging ws1 disk
    (CommitResult.committed record, ws2, disk2)

/-- Process-wide cache of workspaces (the module-level `workspaces`
dict, keyed by repository name). -/
def Cache : Type :=
  List (String × GitWorkspace)

/-- `get_workspace`: return the cached instance if one exists;
otherwise construct fresh defaults, run `init()` (directory creation
plus `save_state()` of the defaults), then `load_state()`, and cache
the resulting instance.  The `init()` call writes the default state
document before `load_state()` reads the file back. -/
def getWorkspace (cache : Cache) (disk : Disk) (repoName : String) :
    Cache × Disk × GitWorkspace :=
  match lookupA repoName cache with
  | some ws => (cache, disk, ws)
  | none =>
      let ws0 := GitWorkspace.new repoName
      let disk1 := ws0.init disk
      let ws1 := loadState ws0 disk1
      (insertA cache repoName ws1, disk1, ws1)

/-- The `git_checkout` tool branch for a plain switch (`create` false):
set `current_branch` to the requested name and `save_state()`.  (With
`create` true the source first issues remote branch-creation API
calls, which do not touch the local workspace state, and then performs
the same two local steps.) -/
def gitCheckout (ws : GitWorkspace) (disk : Disk) (branch : String) :
    GitWorkspace × Disk :=
  let ws' := { ws with currentBranch := branch }
  (ws', saveState ws' disk)

/-- The `git_remote` tool branch, action `add`: set `remote_url` and
persist. -/
def gitRemoteAdd (ws : GitWorkspace) (disk : Disk) (url : String) :
    GitWorkspace × Disk :=
  let ws' := { ws with remoteUrl := some url }
  (ws', saveState ws' disk)

/-- The `git_remote` tool branch, action `remove`: clear `remote_url`
and persist. -/
def gitRemoteRemove (ws : GitWorkspace) (disk : Disk) :
    GitWorkspace × Disk :=
  let ws' := { ws with remoteUrl := none }
  (ws', saveState ws' disk)

/-- Outcome of the network part of `git_clone`, which is external to
the workspace model: either the initial repository-info request fails
(the `except` early return), or the recursive content download raises
after some files were already recorded (`clone_directory` re-raises
into the outer handler), or every API call succeeds and yields the
listed `(path, sha)` pairs. -/
inductive CloneOutcome : Type where
  | apiError : CloneOutcome
  | partialError : List (String × String) → CloneOutcome
  | success : List (String × String) → CloneOutcome
deriving DecidableEq, Repr

/-- Whether a `git_clone` call reported success or an error message. -/
inductive CloneResult : Type where
  | ok : CloneResult
  | error : CloneResult
deriving DecidableEq, Repr

/-- The `git_clone` tool branch (after `parse_repo_info` has produced
`owner` and `repo`): fetch-or-create the workspace via
`get_workspace`, reassign its `workspace_path` to the local clone
directory, set `remote_url` and `current_branch` — all before any
save — then, depending on the network outcome: return an error
message (leaving the mutated instance unsaved), or record the fetched
files' shas in `tracked_files` and `save_state()` only at the very
end.  The cache holds the same (mutated) instance throughout, since
the Python object is shared by reference. -/
def gitClone (cache : Cache) (disk : Disk)
    (owner repo directory branch : String) (outcome : CloneOutcome) :
    CloneResult × Cache × Disk × GitWorkspace :=
  let repoName := owner ++ "/" ++ repo
  let (cache1, disk1, ws0) := getWorkspace cache disk repoName
  let ws1 :=
    { ws0 with
      workspacePath := directory
      remoteUrl := some ("https://github.com/" ++ repoName ++ ".git")
      currentBranch := branch }
  match outcome with
  | CloneOutcome.apiError =>
      (CloneResult.error, insertA cache1 repoName ws1, disk1, ws1)
  | CloneOutcome.partialError files =>
      let ws2 :=
        { ws1 with
          trackedFiles :=
            files.foldl (fun t p => insertA t p.1 p.2) ws1.trackedFiles }
      (CloneResult.error, insertA cache1 repoName ws2, disk1, ws2)
  | CloneOutcome.success files =>
      let ws2 :=
        { ws1 with
          trackedFiles :=
            files.foldl (fun t p => insertA t p.1 p.2) ws1.trackedFiles }
      (CloneResult.ok, insertA cache1 repoName ws2, saveState ws2 disk1, ws2)

/-- The `git_stash` tool branch, action `save`: with nothing staged,
return without touching anything; otherwise prepend a new entry
(current staging area, branch, message, timestamp) to `stash.json`
and then `clear_staging()` (which persists the emptied state). -/
def gitStashSave (ws : GitWorkspace) (disk : Disk)
    (message now : String) : GitWorkspace × Disk :=
  if ws.stagingArea = [] then
    (ws, disk)
  else
    let entry : StashEntry :=
      { message := if message = "" then "WIP on " ++ ws.currentBranch else message
        branch := ws.currentBranch
        files := ws.stagingArea
        timestamp := now }
    let stashes :=
      (lookupA (stashFilePath ws.workspacePath) disk.stashFiles).getD []
    let disk1 :=
      { disk with
        stashFiles :=
          insertA disk.stashFiles (stashFilePath ws.workspacePath)
            (entry :: stashes) }
    clearStaging ws disk1

/-- The `git_stash` tool branch, actions `pop` and `apply` (`pop` is
the flag distinguishing them): with no stash file or an empty stash
list, return without touching anything; otherwise replace the whole
staging area by the files of the first (most recent) stash entry,
`save_state()`, and — for `pop` only — rewrite `stash.json` without
that entry. -/
def gitStashPopApply (ws : GitWorkspace) (disk : Disk) (pop : Bool) :
    GitWorkspace × Disk :=
  match lookupA (stashFilePath ws.workspacePath) disk.stashFiles with
  | none => (ws, disk)
  | some [] => (ws, disk)
  | some (entry :: rest) =>
      let ws' := { ws with stagingArea := entry.files }
      let disk1 := saveState ws' disk
      if pop then
        (ws',
          { disk1 with
            stashFiles :=
              insertA disk1.stashFiles (stashFilePath ws.workspacePath)
                rest })
      else
        (ws', disk1)

/-- A single staging-area instruction, for replaying call sequences. -/
inductive StageOp : Type where
  | stage : String → String → StageOp
  | unstage : String → StageOp
deriving DecidableEq, Repr

/-- Replay a sequence of `git_add` / `git_reset` staging calls through
the persisting workspace operations. -/
def replayWs (ops : List StageOp) (st : GitWorkspace × Disk) :
    GitWorkspace × Disk :=
  ops.foldl
    (fun st op =>
      match op with
      | StageOp.stage p c => addToStaging st.1 st.2 p c
      | StageOp.unstage p => removeFromStaging st.1 st.2 p)
    st

/-- Replay the same sequence as plain insert/delete operations on an
in-memory map, with no persistence involved. -/
def replayMap (ops : List StageOp) (m : List (String × String)) :
    List (String × String) :=
  ops.foldl
    (fun m op =>
      match op with
      | StageOp.stage p c => insertA m p c
      | StageOp.unstage p => eraseA m p)
    m

/-- Consistency of the persisted file with the in-memory instance: the
state document on disk under the instance's workspace path is exactly
what `save_state` would write now. -/
def consistent (ws : GitWorkspace) (disk : Disk) : Prop :=
  lookupA (stateFilePath ws.workspacePath) disk.stateFiles =
    some (saveStateDoc ws)

instance (ws : GitWorkspace) (disk : Disk) : Decidable (consistent ws disk) := by
  unfold consistent
  infer_instance

/-! Association-list lemmas used throughout the development. -/

theorem lookupA_append {β : Type} (k : String) (m l : List (String × β)) :
    lookupA k (m ++ l) =
      (match lookupA k m with
        | some v => some v
        | none => lookupA k l) := by
  induction m with
  | nil => simp [lookupA]
  | cons p rest ih =>
      by_cases h : p.1 = k
      · simp [lookupA, h]
      · simp [lookupA, h, ih]

theorem hasKeyA_iff {β : Type} (k : String) (m : List (String × β)) :
    hasKeyA k m = true ↔ k ∈ keysA m := by
  simp [hasKeyA, keysA, List.any_eq_true, List.mem_map]

theorem lookupA_eq_none_iff {β : Type} (k : String) (m : List (String × β)) :
    lookupA k m = none ↔ k ∉ keysA m := by
  induction m with
  | nil => simp [lookupA, keysA]
  | cons p rest ih =>
      by_cases h : p.1 = k
      · simp [lookupA, h, keysA]
      · simp [lookupA, h, keysA, ih]
        intro hk
        exact fun he => h he.symm

theorem lookupA_mapReplace_of_mem {β : Type} (m : List (String × β))
    (k : String) (v : β) (h : k ∈ keysA m) :
    lookupA k (m.map (fun p => if p.1 = k then (k, v) else p)) = some v := by
  induction m with
  | nil => simp [keysA] at h
  | cons p rest ih =>
      obtain ⟨k1, v1⟩ := p
      by_cases hp : k1 = k
      · rw [List.map_cons, if_pos hp]
        simp [lookupA]
      · have h' : k ∈ keysA rest := by
          rcases (by simpa [keysA] using h : k = k1 ∨ k ∈ keysA rest) with h1 | h2
          · exact absurd h1.symm hp
          · exact h2
        rw [List.map_cons, if_neg hp]
        rw [lookupA, if_neg hp]
        exact ih h'

theorem lookupA_mapReplace_ne {β : Type} (m : List (String × β))
    (k : String) (v : β) (k' : String) (h : k' ≠ k) :
    lookupA k' (m.map (fun p => if p.1 = k then (k, v) else p)) =
      lookupA k' m := by
  induction m with
  | nil => simp
  | cons p rest ih =>
      obtain ⟨k1, v1⟩ := p
      by_cases hp : k1 = k
      · have hne : ¬ k = k' := fun he => h he.symm
        have hne1 : ¬ k1 = k' := by
          rw [hp]
          exact hne
        rw [List.map_cons, if_pos hp]
        rw [lookupA, if_neg hne]
        rw [lookupA, if_neg hne1]
        exact ih
      · rw [List.map_cons, if_neg hp]
        by_cases hq : k1 = k'
        · rw [lookupA, if_pos hq, lookupA, if_pos hq]
        · rw [lookupA, if_neg hq, lookupA, if_neg hq]
          exact ih

theorem lookupA_insertA_self {β : Type} (m : List (String × β))
    (k : String) (v : β) :
    lookupA k (insertA m k v) = some v := by
  by_cases h : hasKeyA k m = true
  · rw [insertA, if_pos h]
    exact lookupA_mapReplace_of_mem m k v ((hasKeyA_iff k m).mp h)
  · rw [insertA, if_neg h]
    rw [lookupA_append]
    have hn : lookupA k m = none := by
      rw [lookupA_eq_none_iff]
      intro hk
      exact h ((hasKeyA_iff k m).mpr hk)
    simp [hn, lookupA]

theorem lookupA_insertA_ne {β : Type} (m : List (String × β))
    (k : String) (v : β) (k' : String) (h : k' ≠ k) :
    lookupA k' (insertA m k v) = lookupA k' m := by
  by_cases hk : hasKeyA k m = true
  · rw [insertA, if_pos hk]
    exact lookupA_mapReplace_ne m k v k' h
  · rw [insertA, if_neg hk]
    rw [lookupA_append]
    cases hm : lookupA k' m with
    | some v' => simp
    | none =>
        have hkk : ¬ k = k' := fun he => h he.symm
        simp [lookupA, hkk]

theorem keysA_mapReplace {β : Type} (m : List (String × β))
    (k : String) (v : β) :
    keysA (m.map (fun p => if p.1 = k then (k, v) else p)) = keysA m := by
  induction m with
  | nil => rfl
  | cons p rest ih =>
      obtain ⟨k1, v1⟩ := p
      by_cases hp : k1 = k
      · rw [List.map_cons, if_pos hp]
        simp [keysA] at ih ⊢
        exact ⟨hp.symm, ih⟩
      · rw [List.map_cons, if_neg hp]
        simp [keysA] at ih ⊢
        exact ih

theorem keysA_append {β : Type} (m l : List (String × β)) :
    keysA (m ++ l) = keysA m ++ keysA l := by
  simp [keysA]

theorem NodupKeys_insertA {β : Type} (m : List (String × β))
    (k : String) (v : β) (h : NodupKeys m) :
    NodupKeys (insertA m k v) := by
  by_cases hk : hasKeyA k m = true
  · rw [NodupKeys, insertA, if_pos hk, keysA_mapReplace]
    exact h
  · rw [NodupKeys, insertA, if_neg hk, keysA_append]
    have hnk : k ∉ keysA m := fun hmem => hk ((hasKeyA_iff k m).mpr hmem)
    rw [List.nodup_append]
    refine ⟨h, by simp [keysA], ?_⟩
    intro x hx
    simp [keysA]
    intro hxk
    rw [hxk] at hx
    exact hnk hx

theorem lookupA_eraseA_self {β : Type} (m : List (String × β)) (k : String) :
    lookupA k (eraseA m k) = none := by
  induction m with
  | nil => rfl
  | cons p rest ih =>
      obtain ⟨k1, v1⟩ := p
      by_cases hp : k1 = k
      · simpa [eraseA, List.filter_cons, hp] using ih
      · simpa [eraseA, List.filter_cons, hp, lookupA] using ih

theorem lookupA_eraseA_ne {β : Type} (m : List (String × β))
    (k k' : String) (h : k' ≠ k) :
    lookupA k' (eraseA m k) = lookupA k' m := by
  induction m with
  | nil => rfl
  | cons p rest ih =>
      obtain ⟨k1, v1⟩ := p
      by_cases hp : k1 = k
      · have hkk : ¬ k = k' := fun he => h he.symm
        simp only [eraseA, List.filter_cons] at ih ⊢
        simp [hp, lookupA, hkk]
        simpa using ih
      · by_cases hq : k1 = k'
        · simp [eraseA, List.filter_cons, hp, lookupA, hq, h]
        · simp only [eraseA, List.filter_cons] at ih ⊢
          simp [hp, lookupA, hq]
          simpa using ih

theorem eraseA_of_not_hasKey {β : Type} (m : List (String × β)) (k : String)
    (h : hasKeyA k m = false) : eraseA m k = m := by
  induction m with
  | nil => rfl
  | cons p rest ih =>
      obtain ⟨k1, v1⟩ := p
      rw [hasKeyA, List.any_cons] at h
      rcases Bool.or_eq_false_iff.mp h with ⟨h1, h2⟩
      have hp : ¬ k1 = k := by simpa using h1
      simp only [eraseA, List.filter_cons] at ih ⊢
      simp [hp]
      simpa using ih h2

theorem keysA_cons {β : Type} (p : String × β) (rest : List (String × β)) :
    keysA (p :: rest) = p.1 :: keysA rest := by
  rfl

theorem lookupA_eq_some_of_mem {β : Type} (m : List (String × β))
    (k : String) (v : β) (hnd : NodupKeys m) (hm : (k, v) ∈ m) :
    lookupA k m = some v := by
  induction m with
  | nil => simp at hm
  | cons p rest ih =>
      obtain ⟨k1, v1⟩ := p
      rw [NodupKeys, keysA_cons, List.nodup_cons] at hnd
      rcases List.mem_cons.mp hm with h1 | h2
      · injection h1 with hk hv
        rw [lookupA, if_pos hk.symm, hv]
      · have hk1 : ¬ k1 = k := by
          intro he
          apply hnd.1
          rw [he]
          simpa [keysA] using List.mem_map_of_mem Prod.fst h2
        rw [lookupA, if_neg hk1]
        exact ih hnd.2 h2

theorem mem_of_lookupA_eq_some {β : Type} (m : List (String × β))
    (k : String) (v : β) (h : lookupA k m = some v) : (k, v) ∈ m := by
  induction m with
  | nil => simp [lookupA] at h
  | cons p rest ih =>
      obtain ⟨k1, v1⟩ := p
      by_cases hp : k1 = k
      · rw [lookupA, if_pos hp] at h
        injection h with hv
        rw [List.mem_cons]
        left
        rw [hp, hv]
      · rw [lookupA, if_neg hp] at h
        exact List.mem_cons.mpr (Or.inr (ih h))

theorem mem_keysA_of_lookupA {β : Type} (m : List (String × β))
    (k : String) (v : β) (h : lookupA k m = some v) : k ∈ keysA m :=
  List.mem_map_of_mem Prod.fst (mem_of_lookupA_eq_some m k v h)

theorem NodupKeys_of_perm {β : Type} (l l' : List (String × β))
    (hp : l.Perm l') (hnd : NodupKeys l) : NodupKeys l' :=
  ((hp.map Prod.fst).nodup_iff).mp hnd

theorem lookupA_congr_perm {β : Type} (l l' : List (String × β))
    (k : String) (hnd : NodupKeys l) (hp : l.Perm l') :
    lookupA k l = lookupA k l' := by
  have hnd' : NodupKeys l' := NodupKeys_of_perm l l' hp hnd
  cases h : lookupA k l with
  | none =>
      have hk : k ∉ keysA l := (lookupA_eq_none_iff k l).mp h
      have hk' : k ∉ keysA l' := by
        intro hmem
        exact hk (((hp.map Prod.fst).mem_iff).mpr hmem)
      exact ((lookupA_eq_none_iff k l').mpr hk').symm
  | some v =>
      have hm : (k, v) ∈ l := mem_of_lookupA_eq_some l k v h
      have hm' : (k, v) ∈ l' := hp.mem_iff.mp hm
      exact (lookupA_eq_some_of_mem l' k v hnd' hm').symm

/-! Lemmas about folding dictionary insertions over a list of entries,
as the `git_commit` and `git_clone` branches do. -/

theorem lookupA_foldl_insertA_of_notMem {β : Type}
    (g : String × String → β) (L : List (String × String))
    (t0 : List (String × β)) (k : String) (h : k ∉ keysA L) :
    lookupA k (L.foldl (fun t p => insertA t p.1 (g p)) t0) =
      lookupA k t0 := by
  induction L generalizing t0 with
  | nil => rfl
  | cons p rest ih =>
      rw [keysA_cons] at h
      have h1 : ¬ p.1 = k := fun he => h (by rw [he]; exact List.mem_cons_self ..)
      have h2 : k ∉ keysA rest := fun hm => h (List.mem_cons_of_mem _ hm)
      rw [List.foldl_cons, ih _ h2]
      exact lookupA_insertA_ne t0 p.1 (g p) k (fun he => h1 he.symm)

theorem lookupA_foldl_insertA_of_mem {β : Type}
    (g : String × String → β) (L : List (String × String))
    (t0 : List (String × β)) (k c : String)
    (hnd : NodupKeys L) (hm : (k, c) ∈ L) :
    lookupA k (L.foldl (fun t p => insertA t p.1 (g p)) t0) =
      some (g (k, c)) := by
  induction L generalizing t0 with
  | nil => simp at hm
  | cons p rest ih =>
      obtain ⟨k1, c1⟩ := p
      rw [NodupKeys, keysA_cons, List.nodup_cons] at hnd
      rcases List.mem_cons.mp hm with h1 | h2
      · injection h1 with hk hc
        subst hk
        subst hc
        rw [List.foldl_cons, lookupA_foldl_insertA_of_notMem g rest _ k hnd.1]
        exact lookupA_insertA_self t0 k (g (k, c))
      · rw [List.foldl_cons]
        exact ih _ hnd.2 h2

theorem NodupKeys_foldl_insertA {β : Type}
    (g : String × String → β) (L : List (String × String))
    (t0 : List (String × β)) (h : NodupKeys t0) :
    NodupKeys (L.foldl (fun t p => insertA t p.1 (g p)) t0) := by
  induction L generalizing t0 with
  | nil => exact h
  | cons p rest ih =>
      rw [List.foldl_cons]
      exact ih _ (NodupKeys_insertA t0 p.1 (g p) h)

/-! Helper lemmas about persistence. -/

theorem consistent_saveState (ws : GitWorkspace) (disk : Disk) :
    consistent ws (saveState ws disk) := by
  unfold consistent saveState
  exact lookupA_insertA_self disk.stateFiles
    (stateFilePath ws.workspacePath) (saveStateDoc ws)

theorem consistent_stashWrite (ws : GitWorkspace) (disk : Disk)
    (path : String) (stashes : List StashEntry) (h : consistent ws disk) :
    consistent ws
      { disk with stashFiles := insertA disk.stashFiles path stashes } :=
  h

/-! Claim-level theorems. -/

/-- C2: on a workspace whose staging map is empty, `git_commit` always
takes the "Nothing to commit" early return — the `EmptyCommit`
condition — and leaves the whole workspace state and the disk
untouched (so in particular the tracked map is unchanged). -/
theorem commit_empty_staging (ws : GitWorkspace) (disk : Disk)
    (message description now : String) (h : ws.stagingArea = []) :
    gitCommit ws disk message description now =
      (CommitResult.emptyCommit, ws, disk) := by
  rw [gitCommit, if_pos h]

/-- Witness for C2 at a concrete empty-staging workspace. -/
theorem commit_empty_staging_witness :
    (GitWorkspace.new "o/r").stagingArea = [] ∧
    gitCommit (GitWorkspace.new "o/r") Disk.empty "msg" "" "t0" =
      (CommitResult.emptyCommit, GitWorkspace.new "o/r", Disk.empty) :=
  ⟨rfl, commit_empty_staging (GitWorkspace.new "o/r") Disk.empty "msg" "" "t0" rfl⟩

/-- C1: on a workspace with a non-empty staging map (its keys distinct,
as for every Python dict, and likewise for the tracked map),
`git_commit` succeeds: it empties the staging map, stores the content
digest of every previously staged path in the tracked map (with
exactly one tracked entry for that path), leaves the tracked entries
of paths outside the staged set unchanged, and returns a record
carrying the message-and-timestamp-derived identifier, the message,
the affected paths, and the timestamp. -/
theorem commit_nonempty_staging (ws : GitWorkspace) (disk : Disk)
    (message description now : String)
    (hne : ws.stagingArea ≠ [])
    (hstag : NodupKeys ws.stagingArea)
    (htr : NodupKeys ws.trackedFiles) :
    ∃ record ws' disk',
      gitCommit ws disk message description now =
        (CommitResult.committed record, ws', disk') ∧
      ws'.stagingArea = [] ∧
      (∀ p c, (p, c) ∈ ws.stagingArea →
        lookupA p ws'.trackedFiles = some (sha1Hex c) ∧
        (keysA ws'.trackedFiles).count p = 1) ∧
      (∀ p, p ∉ keysA ws.stagingArea →
        lookupA p ws'.trackedFiles = lookupA p ws.trackedFiles) ∧
      record =
        { id := (sha1Hex (message ++ now)).take 7
          message := message
          description := description
          files := keysA ws.stagingArea
          timestamp := now } := by
  have hstep : gitCommit ws disk message description now =
      (CommitResult.committed
        { id := (sha1Hex (message ++ now)).take 7
          message := message
          description := description
          files := keysA ws.stagingArea
          timestamp := now },
        { ws with
          stagingArea := []
          trackedFiles :=
            ws.stagingArea.foldl
              (fun t q => insertA t q.1 (sha1Hex q.2)) ws.trackedFiles },
        saveState
          { ws with
            stagingArea := []
            trackedFiles :=
              ws.stagingArea.foldl
                (fun t q => insertA t q.1 (sha1Hex q.2)) ws.trackedFiles }
          disk) := by
    rw [gitCommit, if_neg hne]
    rfl
  refine ⟨_, _, _, hstep, ?_, ?_, ?_, ?_⟩
  · rfl
  · intro p c hmem
    constructor
    · exact lookupA_foldl_insertA_of_mem (fun q => sha1Hex q.2)
        ws.stagingArea ws.trackedFiles p c hstag hmem
    · have hnd' : NodupKeys
          (ws.stagingArea.foldl
            (fun t q => insertA t q.1 (sha1Hex q.2)) ws.trackedFiles) :=
        NodupKeys_foldl_insertA (fun q => sha1Hex q.2)
          ws.stagingArea ws.trackedFiles htr
      have hlk := lookupA_foldl_insertA_of_mem (fun q => sha1Hex q.2)
        ws.stagingArea ws.trackedFiles p c hstag hmem
      exact List.count_eq_one_of_mem hnd'
        (mem_keysA_of_lookupA _ p (sha1Hex c) hlk)
  · intro p hp
    exact lookupA_foldl_insertA_of_notMem (fun q => sha1Hex q.2)
      ws.stagingArea ws.trackedFiles p hp
  · rfl

/-- Witness for C1: one staged file, one unrelated tracked file. -/
theorem commit_nonempty_staging_witness :
    (let ws0 : GitWorkspace :=
      { GitWorkspace.new "o/r" with
        stagingArea := [("a.txt", "hello")]
        trackedFiles := [("old.txt", "d0")] }
     ws0.stagingArea ≠ [] ∧ NodupKeys ws0.stagingArea ∧
     NodupKeys ws0.trackedFiles ∧
     ∃ record ws' disk',
      gitCommit ws0 Disk.empty "init" "" "t0" =
        (CommitResult.committed record, ws', disk') ∧
      ws'.stagingArea = [] ∧
      (∀ p c, (p, c) ∈ ws0.stagingArea →
        lookupA p ws'.trackedFiles = some (sha1Hex c) ∧
        (keysA ws'.trackedFiles).count p = 1) ∧
      (∀ p, p ∉ keysA ws0.stagingArea →
        lookupA p ws'.trackedFiles = lookupA p ws0.trackedFiles) ∧
      record =
        { id := (sha1Hex ("init" ++ "t0")).take 7
          message := "init"
          description := ""
          files := keysA ws0.stagingArea
          timestamp := "t0" }) :=
  ⟨by decide, by decide, by decide,
    commit_nonempty_staging _ Disk.empty "init" "" "t0"
      (by decide) (by decide) (by decide)⟩

theorem NodupKeys_saveStateDoc (ws : GitWorkspace) :
    NodupKeys (saveStateDoc ws) := by
  show (keysA (saveStateDoc ws)).Nodup
  have hk : keysA (saveStateDoc ws) =
      ["staging_area", "tracked_files", "current_branch", "remote_url"] := rfl
  rw [hk]
  decide

/-- C3: saving any workspace state and loading it back into a fresh
instance reproduces all four state fields, and the result does not
depend on the key order of the written JSON document: loading any
permutation `doc` of the saved document gives the same four fields. -/
theorem saveLoad_roundTrip (ws : GitWorkspace) (disk : Disk)
    (doc : List (String × JVal))
    (hpath : ws.workspacePath = defaultWorkspacePath ws.repoName)
    (hdoc : doc.Perm (saveStateDoc ws)) :
    loadState (GitWorkspace.new ws.repoName) (saveState ws disk) =
      loadFields (GitWorkspace.new ws.repoName) (saveStateDoc ws) ∧
    (loadFields (GitWorkspace.new ws.repoName) doc).stagingArea =
      ws.stagingArea ∧
    (loadFields (GitWorkspace.new ws.repoName) doc).trackedFiles =
      ws.trackedFiles ∧
    (loadFields (GitWorkspace.new ws.repoName) doc).currentBranch =
      ws.currentBranch ∧
    (loadFields (GitWorkspace.new ws.repoName) doc).remoteUrl =
      ws.remoteUrl := by
  have hnd : NodupKeys doc :=
    NodupKeys_of_perm (saveStateDoc ws) doc hdoc.symm (NodupKeys_saveStateDoc ws)
  have hlk : ∀ k, lookupA k doc = lookupA k (saveStateDoc ws) :=
    fun k => lookupA_congr_perm doc (saveStateDoc ws) k hnd hdoc
  refine ⟨?_, ?_, ?_, ?_, ?_⟩
  · have hfp : stateFilePath (GitWorkspace.new ws.repoName).workspacePath =
        stateFilePath ws.workspacePath := by
      rw [hpath]
      rfl
    rw [loadState, hfp]
    rw [saveState]
    show (match lookupA (stateFilePath ws.workspacePath)
        (insertA disk.stateFiles (stateFilePath ws.workspacePath)
          (saveStateDoc ws)) with
      | none => GitWorkspace.new ws.repoName
      | some d => loadFields (GitWorkspace.new ws.repoName) d) = _
    rw [lookupA_insertA_self]
  · show jGetObj doc "staging_area" = ws.stagingArea
    rw [jGetObj, hlk]
    rfl
  · show jGetObj doc "tracked_files" = ws.trackedFiles
    rw [jGetObj, hlk]
    rfl
  · show jGetStr doc "current_branch" "main" = ws.currentBranch
    rw [jGetStr, hlk]
    rfl
  · show jGetOptStr doc "remote_url" = ws.remoteUrl
    rw [jGetOptStr, hlk]
    cases hr : ws.remoteUrl with
    | none => simp [saveStateDoc, lookupA, hr]
    | some u => simp [saveStateDoc, lookupA, hr]

/-- Witness for C3: a workspace with data in all four fields and a
key-reordered copy of its saved document. -/
theorem saveLoad_roundTrip_witness :
    (let ws0 : GitWorkspace :=
      { GitWorkspace.new "o/r" with
        stagingArea := [("a.txt", "hello")]
        trackedFiles := [("b.txt", "d1")]
        currentBranch := "dev"
        remoteUrl := some "https://github.com/o/r.git" }
     let doc0 : List (String × JVal) :=
      [ ("remote_url", JVal.str "https://github.com/o/r.git")
      , ("current_branch", JVal.str "dev")
      , ("staging_area", JVal.obj [("a.txt", "hello")])
      , ("tracked_files", JVal.obj [("b.txt", "d1")]) ]
     ws0.workspacePath = defaultWorkspacePath ws0.repoName ∧
     doc0.Perm (saveStateDoc ws0) ∧
     (loadState (GitWorkspace.new ws0.repoName) (saveState ws0 Disk.empty) =
        loadFields (GitWorkspace.new ws0.repoName) (saveStateDoc ws0) ∧
      (loadFields (GitWorkspace.new ws0.repoName) doc0).stagingArea =
        ws0.stagingArea ∧
      (loadFields (GitWorkspace.new ws0.repoName) doc0).trackedFiles =
        ws0.trackedFiles ∧
      (loadFields (GitWorkspace.new ws0.repoName) doc0).currentBranch =
        ws0.currentBranch ∧
      (loadFields (GitWorkspace.new ws0.repoName) doc0).remoteUrl =
        ws0.remoteUrl)) :=
  ⟨rfl, by decide,
    saveLoad_roundTrip _ Disk.empty _ rfl (by decide)⟩

/-- C6: unstaging a path removes it from the staging map (a lookup of
that path afterwards finds nothing, every other path is untouched, and
the remaining workspace fields are unchanged); when the path was
present the new state is persisted, and when it was absent the call
raises no error and the entire workspace-and-disk state is returned
unchanged. -/
theorem unstage_behavior (ws : GitWorkspace) (disk : Disk) (p : String) :
    lookupA p (removeFromStaging ws disk p).1.stagingArea = none ∧
    (∀ q, q ≠ p →
      lookupA q (removeFromStaging ws disk p).1.stagingArea =
        lookupA q ws.stagingArea) ∧
    (removeFromStaging ws disk p).1.trackedFiles = ws.trackedFiles ∧
    (removeFromStaging ws disk p).1.currentBranch = ws.currentBranch ∧
    (removeFromStaging ws disk p).1.remoteUrl = ws.remoteUrl ∧
    (removeFromStaging ws disk p).1.workspacePath = ws.workspacePath ∧
    (hasKeyA p ws.stagingArea = true →
      (removeFromStaging ws disk p).2 =
        saveState (removeFromStaging ws disk p).1 disk) ∧
    (hasKeyA p ws.stagingArea = false →
      removeFromStaging ws disk p = (ws, disk)) := by
  by_cases hk : hasKeyA p ws.stagingArea = true
  · have hr : removeFromStaging ws disk p =
        ({ ws with stagingArea := eraseA ws.stagingArea p },
          saveState { ws with stagingArea := eraseA ws.stagingArea p } disk) := by
      rw [removeFromStaging, if_pos hk]
    rw [hr]
    refine ⟨lookupA_eraseA_self ws.stagingArea p, ?_, rfl, rfl, rfl, rfl,
      fun _ => rfl, fun hf => absurd hk (by simp [hf])⟩
    intro q hq
    exact lookupA_eraseA_ne ws.stagingArea p q hq
  · have hf : hasKeyA p ws.stagingArea = false := by
      simpa using hk
    have hr : removeFromStaging ws disk p = (ws, disk) := by
      rw [removeFromStaging, if_neg hk]
    rw [hr]
    have hnone : lookupA p ws.stagingArea = none := by
      rw [lookupA_eq_none_iff]
      intro hmem
      exact hk ((hasKeyA_iff p ws.stagingArea).mpr hmem)
    exact ⟨hnone, fun q _ => rfl, rfl, rfl, rfl, rfl,
      fun ht => absurd ht hk, fun _ => rfl⟩

/-- Witness for C6 on an empty staging map: the inner implications at
a concrete absent path. -/
theorem unstage_behavior_witness :
    lookupA "missing.txt"
      (removeFromStaging (GitWorkspace.new "o/r") Disk.empty
        "missing.txt").1.stagingArea = none ∧
    removeFromStaging (GitWorkspace.new "o/r") Disk.empty "missing.txt" =
      (GitWorkspace.new "o/r", Disk.empty) :=
  ⟨(unstage_behavior (GitWorkspace.new "o/r") Disk.empty "missing.txt").1,
    (unstage_behavior (GitWorkspace.new "o/r") Disk.empty
      "missing.txt").2.2.2.2.2.2.2 rfl⟩

/-- C7: a plain branch switch (`git_checkout` without branch creation)
sets `current_branch` to the requested name and persists it — loading
the saved state from disk into a fresh instance yields the new name —
while the staging and tracked maps are left exactly unchanged. -/
theorem checkout_switch (ws : GitWorkspace) (disk : Disk) (branch : String)
    (hpath : ws.workspacePath = defaultWorkspacePath ws.repoName) :
    (gitCheckout ws disk branch).1.currentBranch = branch ∧
    (gitCheckout ws disk branch).1.stagingArea = ws.stagingArea ∧
    (gitCheckout ws disk branch).1.trackedFiles = ws.trackedFiles ∧
    (loadState (GitWorkspace.new ws.repoName)
      (gitCheckout ws disk branch).2).currentBranch = branch := by
  refine ⟨rfl, rfl, rfl, ?_⟩
  have hfp : stateFilePath (GitWorkspace.new ws.repoName).workspacePath =
      stateFilePath ws.workspacePath := by
    rw [hpath]
    rfl
  rw [loadState, hfp]
  show (match lookupA (stateFilePath ws.workspacePath)
      (insertA disk.stateFiles (stateFilePath ws.workspacePath)
        (saveStateDoc { ws with currentBranch := branch })) with
    | none => GitWorkspace.new ws.repoName
    | some d => loadFields (GitWorkspace.new ws.repoName) d).currentBranch = branch
  rw [lookupA_insertA_self]
  rfl

/-- Witness for C7 at the spec scenario: switch to `"feature"` and
reload from disk. -/
theorem checkout_switch_witness :
    (GitWorkspace.new "o/r").workspacePath =
      defaultWorkspacePath (GitWorkspace.new "o/r").repoName ∧
    ((gitCheckout (GitWorkspace.new "o/r") Disk.empty "feature").1.currentBranch =
        "feature" ∧
      (gitCheckout (GitWorkspace.new "o/r") Disk.empty "feature").1.stagingArea =
        (GitWorkspace.new "o/r").stagingArea ∧
      (gitCheckout (GitWorkspace.new "o/r") Disk.empty "feature").1.trackedFiles =
        (GitWorkspace.new "o/r").trackedFiles ∧
      (loadState (GitWorkspace.new (GitWorkspace.new "o/r").repoName)
        (gitCheckout (GitWorkspace.new "o/r") Disk.empty "feature").2).currentBranch =
        "feature") :=
  ⟨rfl, checkout_switch (GitWorkspace.new "o/r") Disk.empty "feature" rfl⟩

/-- C8: replaying any sequence of stage/unstage calls through the
persisting workspace operations yields exactly the staging map
obtained by applying the same inserts and deletes to a plain in-memory
map — persistence introduces no divergence. -/
theorem staging_replay_equiv (ops : List StageOp)
    (ws : GitWorkspace) (disk : Disk) :
    (replayWs ops (ws, disk)).1.stagingArea =
      replayMap ops ws.stagingArea := by
  induction ops generalizing ws disk with
  | nil => rfl
  | cons op rest ih =>
      cases op with
      | stage p c =>
          have h1 : replayWs (StageOp.stage p c :: rest) (ws, disk) =
              replayWs rest (addToStaging ws disk p c) := rfl
          have h2 : replayMap (StageOp.stage p c :: rest) ws.stagingArea =
              replayMap rest (insertA ws.stagingArea p c) := rfl
          rw [h1, h2]
          exact ih { ws with stagingArea := insertA ws.stagingArea p c }
            (saveState { ws with stagingArea := insertA ws.stagingArea p c } disk)
      | unstage p =>
          have h2 : replayMap (StageOp.unstage p :: rest) ws.stagingArea =
              replayMap rest (eraseA ws.stagingArea p) := rfl
          rw [h2]
          by_cases hk : hasKeyA p ws.stagingArea = true
          · have h1 : replayWs (StageOp.unstage p :: rest) (ws, disk) =
                replayWs rest
                  ({ ws with stagingArea := eraseA ws.stagingArea p },
                    saveState
                      { ws with stagingArea := eraseA ws.stagingArea p } disk) := by
              show replayWs rest (removeFromStaging ws disk p) = _
              rw [removeFromStaging, if_pos hk]
            rw [h1]
            exact ih _ _
          · have hf : hasKeyA p ws.stagingArea = false := by simpa using hk
            have her : eraseA ws.stagingArea p = ws.stagingArea :=
              eraseA_of_not_hasKey ws.stagingArea p hf
            have h1 : replayWs (StageOp.unstage p :: rest) (ws, disk) =
                replayWs rest (ws, disk) := by
              show replayWs rest (removeFromStaging ws disk p) = _
              rw [removeFromStaging, if_neg hk]
            rw [h1, her]
            exact ih ws disk

/-- C9: the backing directory of a workspace is the fixed workspace
root joined with the repository name after replacing every slash by an
underscore; the mapping is not injective — the distinct names `"a/b"`
and `"a_b"` resolve to the same directory and the same state file, so
saving one workspace overwrites the persisted state of the other (a
subsequent load under the first name returns the second's state). -/
theorem workspacePath_collision :
    (∀ name : String,
      (GitWorkspace.new name).workspacePath =
        WORKSPACE_ROOT ++ "/" ++
          String.mk (name.data.map (fun c => if c = '/' then '_' else c))) ∧
    (GitWorkspace.new "a/b").workspacePath =
      (GitWorkspace.new "a_b").workspacePath ∧
    ("a/b" : String) ≠ "a_b" ∧
    (let ws1 := { GitWorkspace.new "a/b" with currentBranch := "one" }
     let ws2 := { GitWorkspace.new "a_b" with currentBranch := "two" }
     let disk := saveState ws2 (saveState ws1 Disk.empty)
     lookupA (stateFilePath (GitWorkspace.new "a/b").workspacePath)
        disk.stateFiles = some (saveStateDoc ws2) ∧
     (loadState (GitWorkspace.new "a/b") disk).currentBranch = "two") :=
  ⟨fun _ => rfl, by decide, by decide, by decide, by decide⟩

/-- C10: with at least one entry in the stash file, both `pop` and
`apply` replace the entire staging map by the files of the most recent
stash entry (discarding whatever was staged, not merging) and persist
the state; `pop` additionally removes that entry from the stored stash
list, while `apply` leaves the stash file unchanged. -/
theorem stash_pop_apply (ws : GitWorkspace) (disk : Disk)
    (entry : StashEntry) (rest : List StashEntry)
    (hstash : lookupA (stashFilePath ws.workspacePath) disk.stashFiles =
      some (entry :: rest)) :
    (gitStashPopApply ws disk true).1.stagingArea = entry.files ∧
    (gitStashPopApply ws disk false).1.stagingArea = entry.files ∧
    consistent (gitStashPopApply ws disk true).1
      (gitStashPopApply ws disk true).2 ∧
    consistent (gitStashPopApply ws disk false).1
      (gitStashPopApply ws disk false).2 ∧
    lookupA (stashFilePath ws.workspacePath)
      (gitStashPopApply ws disk true).2.stashFiles = some rest ∧
    (gitStashPopApply ws disk false).2.stashFiles = disk.stashFiles := by
  have hpop : gitStashPopApply ws disk true =
      ({ ws with stagingArea := entry.files },
        { saveState { ws with stagingArea := entry.files } disk with
          stashFiles :=
            insertA
              (saveState { ws with stagingArea := entry.files } disk).stashFiles
              (stashFilePath ws.workspacePath) rest }) := by
    rw [gitStashPopApply, hstash]
    rfl
  have happ : gitStashPopApply ws disk false =
      ({ ws with stagingArea := entry.files },
        saveState { ws with stagingArea := entry.files } disk) := by
    rw [gitStashPopApply, hstash]
    rfl
  rw [hpop, happ]
  refine ⟨rfl, rfl, ?_, ?_, ?_, rfl⟩
  · exact consistent_stashWrite _ _ _ _
      (consistent_saveState { ws with stagingArea := entry.files } disk)
  · exact consistent_saveState { ws with stagingArea := entry.files } disk
  · exact lookupA_insertA_self _ _ _

/-- Witness for C10: one stashed entry on top of a staged file. -/
theorem stash_pop_apply_witness :
    (let entry : StashEntry :=
      { message := "WIP on main", branch := "main",
        files := [("s.txt", "stashed")], timestamp := "t0" }
     let ws0 : GitWorkspace :=
      { GitWorkspace.new "o/r" with stagingArea := [("cur.txt", "x")] }
     let disk0 : Disk :=
      { stateFiles := [],
        stashFiles := [(stashFilePath ws0.workspacePath, [entry])] }
     lookupA (stashFilePath ws0.workspacePath) disk0.stashFiles =
        some (entry :: []) ∧
     ((gitStashPopApply ws0 disk0 true).1.stagingArea = entry.files ∧
      (gitStashPopApply ws0 disk0 false).1.stagingArea = entry.files ∧
      consistent (gitStashPopApply ws0 disk0 true).1
        (gitStashPopApply ws0 disk0 true).2 ∧
      consistent (gitStashPopApply ws0 disk0 false).1
        (gitStashPopApply ws0 disk0 false).2 ∧
      lookupA (stashFilePath ws0.workspacePath)
        (gitStashPopApply ws0 disk0 true).2.stashFiles = some [] ∧
      (gitStashPopApply ws0 disk0 false).2.stashFiles = disk0.stashFiles)) :=
  ⟨by decide, stash_pop_apply _ _ _ _ (by decide)⟩

/-- Counterexample to C4 as stated: a `git_clone` call whose initial
repository-info API request fails returns from a point where the
in-memory workspace (its `remote_url`, `current_branch` and
`workspace_path` already reassigned) is NOT consistent with any
persisted state document — no state file exists under the instance's
new workspace path at all. -/
theorem clone_apiError_inconsistent :
    ¬ consistent
      (gitClone [] Disk.empty "o" "r" "/tmp/r" "dev"
        CloneOutcome.apiError).2.2.2
      (gitClone [] Disk.empty "o" "r" "/tmp/r" "dev"
        CloneOutcome.apiError).2.2.1 := by
  decide

/-- C4 (amended): every mutating workspace operation that completes
normally — stage, unstage, clear, commit, plain branch switch, remote
add/remove, the stash operations, and a clone whose API calls all
succeed — leaves the on-disk state file consistent with the in-memory
instance at return; the error returns of `git_clone` are the
exception, established separately. -/
theorem mutating_ops_preserve_consistency
    (ws : GitWorkspace) (disk : Disk) (cache : Cache)
    (p c message description now branch url owner repo directory : String)
    (pop : Bool) (files : List (String × String))
    (h : consistent ws disk) :
    consistent (addToStaging ws disk p c).1 (addToStaging ws disk p c).2 ∧
    consistent (removeFromStaging ws disk p).1
      (removeFromStaging ws disk p).2 ∧
    consistent (clearStaging ws disk).1 (clearStaging ws disk).2 ∧
    consistent (gitCommit ws disk message description now).2.1
      (gitCommit ws disk message description now).2.2 ∧
    consistent (gitCheckout ws disk branch).1 (gitCheckout ws disk branch).2 ∧
    consistent (gitRemoteAdd ws disk url).1 (gitRemoteAdd ws disk url).2 ∧
    consistent (gitRemoteRemove ws disk).1 (gitRemoteRemove ws disk).2 ∧
    consistent (gitStashSave ws disk message now).1
      (gitStashSave ws disk message now).2 ∧
    consistent (gitStashPopApply ws disk pop).1
      (gitStashPopApply ws disk pop).2 ∧
    consistent
      (gitClone cache disk owner repo directory branch
        (CloneOutcome.success files)).2.2.2
      (gitClone cache disk owner repo directory branch
        (CloneOutcome.success files)).2.2.1 := by
  refine ⟨?_, ?_, ?_, ?_, ?_, ?_, ?_, ?_, ?_, ?_⟩
  · exact consistent_saveState _ _
  · by_cases hk : hasKeyA p ws.stagingArea = true
    · have hr : removeFromStaging ws disk p =
          ({ ws with stagingArea := eraseA ws.stagingArea p },
            saveState { ws with stagingArea := eraseA ws.stagingArea p } disk) := by
        rw [removeFromStaging, if_pos hk]
      rw [hr]
      exact consistent_saveState _ _
    · have hr : removeFromStaging ws disk p = (ws, disk) := by
        rw [removeFromStaging, if_neg hk]
      rw [hr]
      exact h
  · exact consistent_saveState _ _
  · by_cases hs : ws.stagingArea = []
    · have hr : gitCommit ws disk message description now =
          (CommitResult.emptyCommit, ws, disk) := by
        rw [gitCommit, if_pos hs]
      rw [hr]
      exact h
    · have hr : gitCommit ws disk message description now =
          (CommitResult.committed
            { id := (sha1Hex (message ++ now)).take 7
              message := message
              description := description
              files := keysA ws.stagingArea
              timestamp := now },
            { ws with
              stagingArea := []
              trackedFiles :=
                ws.stagingArea.foldl
                  (fun t q => insertA t q.1 (sha1Hex q.2)) ws.trackedFiles },
            saveState
              { ws with
                stagingArea := []
                trackedFiles :=
                  ws.stagingArea.foldl
                    (fun t q => insertA t q.1 (sha1Hex q.2)) ws.trackedFiles }
              disk) := by
        rw [gitCommit, if_neg hs]
        rfl
      rw [hr]
      exact consistent_saveState _ _
  · exact consistent_saveState _ _
  · exact consistent_saveState _ _
  · exact consistent_saveState _ _
  · by_cases hs : ws.stagingArea = []
    · have hr : gitStashSave ws disk message now = (ws, disk) := by
        rw [gitStashSave, if_pos hs]
      rw [hr]
      exact h
    · have hr : gitStashSave ws disk message now =
          clearStaging ws
            { disk with
              stashFiles :=
                insertA disk.stashFiles (stashFilePath ws.workspacePath)
                  ({ message :=
                      if message = "" then "WIP on " ++ ws.currentBranch
                      else message
                     branch := ws.currentBranch
                     files := ws.stagingArea
                     timestamp := now } ::
                    (lookupA (stashFilePath ws.workspacePath)
                      disk.stashFiles).getD []) } := by
        rw [gitStashSave, if_neg hs]
      rw [hr]
      exact consistent_saveState _ _
  · cases hl : lookupA (stashFilePath ws.workspacePath) disk.stashFiles with
    | none =>
        have hr : gitStashPopApply ws disk pop = (ws, disk) := by
          rw [gitStashPopApply, hl]
        rw [hr]
        exact h
    | some stashes =>
        cases stashes with
        | nil =>
            have hr : gitStashPopApply ws disk pop = (ws, disk) := by
              rw [gitStashPopApply, hl]
            rw [hr]
            exact h
        | cons entry rest =>
            cases pop with
            | true =>
                have hr : gitStashPopApply ws disk true =
                    ({ ws with stagingArea := entry.files },
                      { saveState { ws with stagingArea := entry.files } disk with
                        stashFiles :=
                          insertA
                            (saveState { ws with stagingArea := entry.files }
                              disk).stashFiles
                            (stashFilePath ws.workspacePath) rest }) := by
                  rw [gitStashPopApply, hl]
                  rfl
                rw [hr]
                exact consistent_stashWrite _ _ _ _ (consistent_saveState _ _)
            | false =>
                have hr : gitStashPopApply ws disk false =
                    ({ ws with stagingArea := entry.files },
                      saveState { ws with stagingArea := entry.files } disk) := by
                  rw [gitStashPopApply, hl]
                  rfl
                rw [hr]
                exact consistent_saveState _ _
  · have hgw : getWorkspace cache disk (owner ++ "/" ++ repo) =
        ((getWorkspace cache disk (owner ++ "/" ++ repo)).1,
          (getWorkspace cache disk (owner ++ "/" ++ repo)).2.1,
          (getWorkspace cache disk (owner ++ "/" ++ repo)).2.2) := rfl
    rw [gitClone, hgw]
    exact consistent_saveState _ _

/-- Witness for C4 (amended) at a concrete consistent workspace. -/
theorem mutating_ops_preserve_consistency_witness :
    (let ws0 : GitWorkspace :=
      { GitWorkspace.new "o/r" with stagingArea := [("a.txt", "x")] }
     let disk0 := saveState ws0 Disk.empty
     consistent ws0 disk0 ∧
     (consistent (addToStaging ws0 disk0 "p" "c").1
        (addToStaging ws0 disk0 "p" "c").2 ∧
      consistent (removeFromStaging ws0 disk0 "p").1
        (removeFromStaging ws0 disk0 "p").2 ∧
      consistent (clearStaging ws0 disk0).1 (clearStaging ws0 disk0).2 ∧
      consistent (gitCommit ws0 disk0 "m" "" "t0").2.1
        (gitCommit ws0 disk0 "m" "" "t0").2.2 ∧
      consistent (gitCheckout ws0 disk0 "dev").1
        (gitCheckout ws0 disk0 "dev").2 ∧
      consistent (gitRemoteAdd ws0 disk0 "u").1
        (gitRemoteAdd ws0 disk0 "u").2 ∧
      consistent (gitRemoteRemove ws0 disk0).1 (gitRemoteRemove ws0 disk0).2 ∧
      consistent (gitStashSave ws0 disk0 "m" "t0").1
        (gitStashSave ws0 disk0 "m" "t0").2 ∧
      consistent (gitStashPopApply ws0 disk0 true).1
        (gitStashPopApply ws0 disk0 true).2 ∧
      consistent
        (gitClone [] disk0 "o" "r" "/tmp/r" "dev"
          (CloneOutcome.success [("f.txt", "s1")])).2.2.2
        (gitClone [] disk0 "o" "r" "/tmp/r" "dev"
          (CloneOutcome.success [("f.txt", "s1")])).2.2.1)) :=
  ⟨by decide,
    mutating_ops_preserve_consistency _ _ [] "p" "c" "m" "" "t0" "dev" "u"
      "o" "r" "/tmp/r" true [("f.txt", "s1")] (by decide)⟩

/-- C5's failing scenario, evaluated on the code: in a fresh process
(empty cache) with a persisted state file recording branch `"feature"`
and one tracked file, `get_workspace` returns an instance with the
DEFAULT fields (branch `"main"`, nothing tracked) and overwrites the
state file with the default document — because `init()` runs
`save_state()` before `load_state()` is called — instead of loading
the persisted state as the specification describes. -/
theorem getWorkspace_clobbers_persisted_state :
    (let wsF : GitWorkspace :=
      { GitWorkspace.new "o/r" with
        currentBranch := "feature"
        trackedFiles := [("f.txt", "d1")] }
     let disk0 := saveState wsF Disk.empty
     let r := getWorkspace [] disk0 "o/r"
     r.2.2.currentBranch = "main" ∧
     r.2.2.trackedFiles = [] ∧
     r.2.2.stagingArea = [] ∧
     r.2.2.remoteUrl = none ∧
     lookupA (stateFilePath wsF.workspacePath) r.2.1.stateFiles =
       some (saveStateDoc (GitWorkspace.new "o/r")) ∧
     saveStateDoc (GitWorkspace.new "o/r") ≠ saveStateDoc wsF ∧
     lookupA "o/r" r.1 = some r.2.2) := by
  decide
